import Mathlib

/-!
Shallow embedding of the x-lists skill (browser_auth.py, x_api.py,
export_list.py) and verification of its specified properties.

String-valued operations from Python are modelled over lists of
characters with structural recursion so that every definition reduces
inside the kernel.  Network and file effects are made explicit: page
fetching becomes a function from an optional cursor to a result, the
while-loop of the paginator is given a fuel parameter (returning `none`
when the fuel runs out before the loop finishes), and the observable
side effects of a run are collected in an event trace.
-/

/-- Lowercase a character list; models Python `str.lower` (the inputs in
this development are ASCII, where `Char.toLower` agrees with Python). -/
def lowerL (l : List Char) : List Char := l.map Char.toLower

/-- Suffix test on character lists; models Python `str.endswith`. -/
def endsWithL (s post : List Char) : Bool := post.reverse.isPrefixOf s.reverse

/-- Contiguous-substring test on character lists; models the Python `in`
operator on strings. -/
def containsSub (pat : List Char) : List Char → Bool
  | [] => pat.isEmpty
  | c :: rest => pat.isPrefixOf (c :: rest) || containsSub pat rest

/-- Substring test on strings, via `containsSub`. -/
def strContains (s pat : String) : Bool := containsSub pat.data s.data

/-- Fields read from the `legacy` object of an API user result
(x_api.py, `ListMember.from_api`).  Each field is optional, mirroring
`dict.get` on the response. -/
structure LegacyUser where
  screen_name : Option String
  name : Option String
  description : Option String
  followers_count : Option Nat
  friends_count : Option Nat
  profile_image_url_https : Option String
  created_at : Option String
  location : Option String
  url : Option String
deriving DecidableEq

/-- The empty legacy object, modelling the empty-dict default taken
when the legacy field is absent. -/
def LegacyUser.empty : LegacyUser := ⟨none, none, none, none, none, none, none, none, none⟩

/-- The `user_results.result` object of a timeline entry.  `legacy` is
`none` when the field is absent or an empty (falsy) dict, `some` when it
is a non-empty dict. -/
structure RawUserResult where
  rest_id : Option String
  is_blue_verified : Option Bool
  legacy : Option LegacyUser
deriving DecidableEq

/-- A timeline entry of a ListMembers instruction, projected to the
fields read by `get_list_members`: `user_result` is
`content.itemContent.user_results.result` (none when any link of the
chain is missing or falsy), `cursorType` and `value` come from
`content`. -/
structure RawEntry where
  user_result : Option RawUserResult
  cursorType : Option String
  value : Option String
deriving DecidableEq

/-- A member of an X list (x_api.py, dataclass `ListMember`). -/
structure ListMember where
  id : String
  handle : String
  name : String
  description : String
  followers_count : Nat
  following_count : Nat
  verified : Bool
  profile_image_url : String
  created_at : Option String
  location : Option String
  url : Option String
deriving DecidableEq

/-- Embedding of `ListMember.from_api` (x_api.py lines 61-77): every
`dict.get` default is made explicit with `Option.getD`. -/
def ListMember.from_api (user_result : RawUserResult) : ListMember :=
  let legacy := user_result.legacy.getD LegacyUser.empty
  { id := user_result.rest_id.getD ""
    handle := legacy.screen_name.getD ""
    name := legacy.name.getD ""
    description := legacy.description.getD ""
    followers_count := legacy.followers_count.getD 0
    following_count := legacy.friends_count.getD 0
    verified := user_result.is_blue_verified.getD false
    profile_image_url := legacy.profile_image_url_https.getD ""
    created_at := legacy.created_at
    location := legacy.location
    url := legacy.url }

/-- One iteration of the entry loop of `get_list_members` (x_api.py
lines 190-199): append a member when the entry has a truthy
`user_results.result` with a truthy `legacy`, and overwrite the next
cursor when the entry is a `Bottom` cursor entry. -/
def processEntry (acc : List ListMember × Option String) (entry : RawEntry) :
    List ListMember × Option String :=
  let acc1 :=
    match entry.user_result with
    | some u => if u.legacy.isSome then (acc.1 ++ [ListMember.from_api u], acc.2) else acc
    | none => acc
  if entry.cursorType == some "Bottom" then (acc1.1, entry.value) else acc1

/-- Embedding of the response-parsing part of `get_list_members`
(x_api.py lines 184-201).  The input is the list of instructions, each
given by its entry list (a missing `entries` key is the empty list).
Returns `(members, next_cursor)`. -/
def get_list_members (instructions : List (List RawEntry)) :
    List ListMember × Option String :=
  instructions.foldl (fun acc entries => entries.foldl processEntry acc) ([], none)

/-- One page of list members as consumed by the paginator: the pair
returned by `get_list_members`. -/
structure Page where
  members : List ListMember
  next_cursor : Option String
deriving DecidableEq

/-- Python truthiness of the optional cursor string (`not next_cursor`
is true for `None` and for the empty string). -/
def cursorTruthy : Option String → Bool
  | none => false
  | some s => !(s == "")

/-- Observable effects of a run of the export pipeline. -/
inductive XEvent where
  | fetchInfo : XEvent
  | fetchPage : Option String → XEvent
  | writeFile : XEvent
deriving DecidableEq

/-- Embedding of the `while True` loop of `get_all_list_members`
(x_api.py lines 212-228).  `fetch` abstracts one call of
`get_list_members` against the server: it maps the current cursor to a
page or a raised error.  The result pairs the trace of page fetches
with `none` when the fuel is exhausted before the loop finishes,
`some (.error e)` when a fetch raises, and `some (.ok ms)` with the
yielded members when the loop breaks.  The loop yields the members of
each fetched page and breaks when the page has a falsy cursor or no
members. -/
def get_all_list_members (fetch : Option String → Except String Page) :
    Nat → Option String → List XEvent × Option (Except String (List ListMember))
  | 0, _ => ([], none)
  | fuel + 1, cursor =>
    match fetch cursor with
    | .error e => ([.fetchPage cursor], some (.error e))
    | .ok page =>
      if !(cursorTruthy page.next_cursor) || page.members.isEmpty then
        ([.fetchPage cursor], some (.ok page.members))
      else
        let rest := get_all_list_members fetch fuel page.next_cursor
        (.fetchPage cursor :: rest.1,
         rest.2.map (fun r => r.map (fun ms => page.members ++ ms)))

/-- An X list (x_api.py, dataclass `XList`). -/
structure XList where
  id : String
  name : String
  description : String
  member_count : Nat
  subscriber_count : Nat
  mode : String
  created_at : Nat
  owner_handle : Option String
  owner_name : Option String
deriving DecidableEq

/-- The export document assembled by `export_list_to_json` (x_api.py
lines 246-251). -/
structure ExportDoc where
  list : XList
  exported_at : String
  member_count : Nat
  members : List ListMember
deriving DecidableEq

/-- Embedding of `export_list_to_json` (x_api.py lines 231-256).
`get_list_info` abstracts the metadata fetch, `fetch` the page fetches,
`now` the UTC timestamp (the code appends a trailing Z).  The trace
records the metadata fetch, every page fetch, and the file write; the
write event is emitted only on the all-success path, after the whole
member sequence has been collected. -/
def export_list_to_json (get_list_info : Except String XList)
    (fetch : Option String → Except String Page) (fuel : Nat) (now : String) :
    List XEvent × Option (Except String ExportDoc) :=
  match get_list_info with
  | .error e => ([.fetchInfo], some (.error e))
  | .ok info =>
    let paged := get_all_list_members fetch fuel none
    match paged.2 with
    | none => (.fetchInfo :: paged.1, none)
    | some (.error e) => (.fetchInfo :: paged.1, some (.error e))
    | some (.ok ms) =>
      (.fetchInfo :: (paged.1 ++ [.writeFile]),
       some (.ok ⟨info, now ++ "Z", ms.length, ms⟩))

/-- Expected fetch trace for a chained page list: the first fetch uses
the start cursor, each later fetch the cursor carried by the previous
page. -/
def pageTrace : Option String → List Page → List XEvent
  | _, [] => []
  | c, p :: rest => .fetchPage c :: pageTrace p.next_cursor rest

/-- A finite sequence of pages served consistently by `fetch` starting
from cursor `c`: every page before the last carries a truthy
continuation cursor and is non-empty, and the last page carries no
cursor. -/
inductive PageChain (fetch : Option String → Except String Page) :
    Option String → List Page → Prop where
  | last : ∀ c p, fetch c = .ok p → p.next_cursor = none → PageChain fetch c [p]
  | cons : ∀ c p rest, fetch c = .ok p → cursorTruthy p.next_cursor = true →
      p.members ≠ [] → PageChain fetch p.next_cursor rest → PageChain fetch c (p :: rest)

/-- The cursor chain starting at `c` eventually reaches a page with a
falsy cursor or with no members (the break condition of the paginator
loop). -/
inductive Stops (fetch : Option String → Except String Page) : Option String → Prop where
  | done : ∀ c p, fetch c = .ok p →
      (cursorTruthy p.next_cursor = false ∨ p.members = []) → Stops fetch c
  | step : ∀ c p, fetch c = .ok p → cursorTruthy p.next_cursor = true →
      p.members ≠ [] → Stops fetch p.next_cursor → Stops fetch c

/-- A cookie record as returned by the CDP `Network.getAllCookies`
call, projected to the fields the code reads. -/
structure Cookie where
  domain : String
  name : String
  value : String
deriving DecidableEq

/-- The cookie filter of `extract_auth_from_browser` (browser_auth.py
line 100): keep a cookie when its domain string ends with `x.com` or
with `twitter.com`. -/
def cookie_domain_ok (c : Cookie) : Bool :=
  endsWithL c.domain.data "x.com".data || endsWithL c.domain.data "twitter.com".data

/-- Python dict assignment `d[k] = v` on an association list that keeps
insertion order: overwrite in place when the key exists, append
otherwise. -/
def dictInsert (d : List (String × String)) (k v : String) : List (String × String) :=
  if d.any (fun p => p.1 == k) then d.map (fun p => if p.1 == k then (k, v) else p)
  else d ++ [(k, v)]

/-- The cookie dict built by the harvest loop (browser_auth.py lines
98-101). -/
def buildCookies (cs : List Cookie) : List (String × String) :=
  cs.foldl (fun d c => if cookie_domain_ok c then dictInsert d c.name c.value else d) []

/-- A CDP target, projected to the fields the code reads. -/
structure Target where
  type : String
  url : String
  webSocketDebuggerUrl : String
deriving DecidableEq

/-- The preferred-target test of the first selection loop
(browser_auth.py lines 69-74): a page whose URL contains `x.com` or
`twitter.com` as a substring. -/
def target_matches_x (t : Target) : Bool :=
  t.type == "page" && (strContains t.url "x.com" || strContains t.url "twitter.com")

/-- Target selection of `extract_auth_from_browser` (browser_auth.py
lines 66-81): first page-type target whose URL contains the site name,
else the first page-type target, else none. -/
def pickTarget (targets : List Target) : Option Target :=
  match targets.find? target_matches_x with
  | some t => some t
  | none => targets.find? (fun t => t.type == "page")

/-- The distinct failure modes of credential extraction. -/
inductive AuthError where
  | noBrowserPage : AuthError
  | notLoggedIn : AuthError
deriving DecidableEq

/-- X authentication credentials (browser_auth.py, dataclass `XAuth`). -/
structure XAuth where
  auth_token : String
  csrf_token : String
  bearer_token : String
  cookies : List (String × String)
deriving DecidableEq

/-- Embedding of `XAuth.get_headers`. -/
def XAuth.get_headers (a : XAuth) : List (String × String) :=
  [("authorization", a.bearer_token),
   ("x-csrf-token", a.csrf_token),
   ("x-twitter-auth-type", "OAuth2Session"),
   ("x-twitter-active-user", "yes"),
   ("x-twitter-client-language", "en"),
   ("content-type", "application/json")]

/-- Embedding of `XAuth.get_cookie_string`. -/
def XAuth.get_cookie_string (a : XAuth) : String :=
  String.intercalate "; " (a.cookies.map (fun p => p.1 ++ "=" ++ p.2))

/-- The constant bearer token of the X web app (browser_auth.py line
111). -/
def BEARER_TOKEN : String :=
  "Bearer AAAAAAAAAAAAAAAAAAAAANRILgAAAAAAnNwIzUejRCOuH5E6I8xnZz4puTs%3D1Zv7ttfk8LF81IUq16cHjhLTvJu4FA33AGWWjCpTnA"

/-- Observable effects of credential extraction: opening and closing
the WebSocket control channel to a target. -/
inductive BEvent where
  | wsConnect : String → BEvent
  | wsClose : BEvent
deriving DecidableEq

/-- Embedding of `extract_auth_from_browser` (browser_auth.py lines
55-120): pick a target (failing with the no-browser-page error before
any channel is opened when none exists), open the control channel,
harvest and filter the cookies, and require truthy `auth_token` and
`ct0` cookies, failing with the distinct not-logged-in error otherwise.
The input `allCookies` is the cookie list of the CDP response. -/
def extract_auth_from_browser (targets : List Target) (allCookies : List Cookie) :
    List BEvent × Except AuthError XAuth :=
  match pickTarget targets with
  | none => ([], .error .noBrowserPage)
  | some t =>
    let cookies := buildCookies allCookies
    let auth_token := (cookies.lookup "auth_token").getD ""
    let csrf_token := (cookies.lookup "ct0").getD ""
    if auth_token == "" || csrf_token == "" then
      ([.wsConnect t.webSocketDebuggerUrl, .wsClose], .error .notLoggedIn)
    else
      ([.wsConnect t.webSocketDebuggerUrl, .wsClose],
       .ok ⟨auth_token, csrf_token, BEARER_TOKEN, cookies⟩)

/-- The state of a constructed `XListsAPI` client: the session headers
and the cookie header (x_api.py lines 117-121). -/
structure APIClient where
  headers : List (String × String)
  cookieHeader : String
deriving DecidableEq

/-- Embedding of `XListsAPI.__init__`. -/
def XListsAPI.mk_client (auth : XAuth) : APIClient :=
  ⟨auth.get_headers, auth.get_cookie_string⟩

/-- The auth phase of `main` (export_list.py lines 107-114): on any
extraction error the process exits with status 1 before an API client
is constructed, hence before any API call can be attempted. -/
def mainAuthPhase (targets : List Target) (allCookies : List Cookie) :
    Except Nat APIClient :=
  match (extract_auth_from_browser targets allCookies).2 with
  | .error _ => .error 1
  | .ok auth => .ok (XListsAPI.mk_client auth)

/-- The distinct failure modes of list selection by name. -/
inductive SelectError where
  | notFound : SelectError
  | ambiguous : SelectError
deriving DecidableEq

/-- The match test of export-by-name (export_list.py line 146):
`args.list_name.lower() in l.name.lower()`. -/
def nameMatch (query listName : String) : Bool :=
  containsSub (lowerL query.data) (lowerL listName.data)

/-- Embedding of the by-name selection of `main` (export_list.py lines
144-160): no match is a not-found error, more than one match is an
ambiguous error, a unique match selects that list. -/
def selectListByName (query : String) (lists : List XList) : Except SelectError XList :=
  match lists.filter (fun l => nameMatch query l.name) with
  | [] => .error .notFound
  | [l] => .ok l
  | _ :: _ :: _ => .error .ambiguous

/-- Exit behaviour of the by-name branch of `main`: both selection
errors exit with status 1 and no export happens; a unique match
continues with the selected list id. -/
def mainExportByName (query : String) (lists : List XList) : Except Nat String :=
  match selectListByName query lists with
  | .error _ => .error 1
  | .ok l => .ok l.id

/-- Modelled from the spec: the claim about cookie filtering speaks of
a domain that is the target domain or a subdomain of it, a predicate
the code does not contain; it is stated here from the spec words for
comparison with `cookie_domain_ok`. -/
def onTargetDomain (d : String) : Bool :=
  d == "x.com" || endsWithL d.data ".x.com".data ||
  d == "twitter.com" || endsWithL d.data ".twitter.com".data

/-- Remainder of a character list after the first occurrence of a
pattern, or `none` when the pattern does not occur. -/
def restAfter (pat : List Char) : List Char → Option (List Char)
  | [] => none
  | c :: rest =>
    if pat.isPrefixOf (c :: rest) then some ((c :: rest).drop pat.length)
    else restAfter pat rest

/-- Modelled from the spec: the host portion of a URL (the segment
after the scheme separator and before the next slash), used to state
what a page whose URL is on the target domain means; the code itself
only tests for a substring. -/
def urlHost (url : String) : String :=
  match restAfter "://".data url.data with
  | some rest => ⟨rest.takeWhile (fun c => !(c == '/'))⟩
  | none => ""

/-- A sample list member for concrete runs. -/
def demoMember : ListMember := ⟨"1", "alice", "Alice", "", 10, 5, false, "", none, none, none⟩

/-- A second sample list member. -/
def demoMember2 : ListMember := ⟨"2", "bob", "Bob", "", 1, 2, true, "", none, none, none⟩

/-- A sample list for concrete runs. -/
def demoList : XList := ⟨"99", "Demo", "", 1, 0, "Public", 0, none, none⟩

/-- A page source whose first page is empty and carries no cursor. -/
def emptyFetch : Option String → Except String Page := fun _ => .ok ⟨[], none⟩

/-- First page of a well-formed two-page chain. -/
def demoPage0 : Page := ⟨[demoMember], some "cur1"⟩

/-- Second and last page of the chain. -/
def demoPage1 : Page := ⟨[demoMember2], none⟩

/-- A page source serving the two-page chain. -/
def demoChainFetch : Option String → Except String Page
  | none => .ok demoPage0
  | some _ => .ok demoPage1

/-- A first page that carries a continuation cursor but no members. -/
def cexPage0 : Page := ⟨[], some "cur1"⟩

/-- A last page with one member and no cursor. -/
def cexPage1 : Page := ⟨[demoMember], none⟩

/-- A page source serving `cexPage0` then `cexPage1`. -/
def cexFetch : Option String → Except String Page
  | none => .ok cexPage0
  | some _ => .ok cexPage1

/-- A page source that always answers with a non-empty page carrying a
truthy cursor. -/
def alwaysFetch : Option String → Except String Page :=
  fun _ => .ok ⟨[demoMember], some "more"⟩

/-- The list named Gauntlet of the specified name-matching scenario. -/
def gauntletList : XList := ⟨"1876334018150678826", "Gauntlet", "", 0, 0, "Public", 0, none, none⟩

/-- The list named Dev Friends of the same scenario. -/
def devFriendsList : XList := ⟨"42", "Dev Friends", "", 0, 0, "Public", 0, none, none⟩

/-- The two lists of the name-matching scenario. -/
def demoLists : List XList := [gauntletList, devFriendsList]

/-- A cookie whose domain merely ends with the characters `x.com`
without being `x.com` or one of its subdomains. -/
def evilCookie : Cookie := ⟨"fakex.com", "evil", "v"⟩

/-- A cookie on the target domain itself. -/
def demoAuthCookie : Cookie := ⟨"x.com", "auth_token", "tok"⟩

/-- A page target on a lookalike domain whose URL contains `x.com` as a
substring. -/
def fakePageTarget : Target := ⟨"page", "https://fakex.com/home", "ws://fake"⟩

/-- A page target genuinely on the target domain. -/
def xPageTarget : Target := ⟨"page", "https://x.com/home", "ws://x"⟩

/-- A page target on an unrelated site. -/
def demoTarget : Target := ⟨"page", "https://example.org/", "ws://demo"⟩

/-- A non-page CDP target (a service worker) on the target site. -/
def nonPageTarget : Target := ⟨"service_worker", "https://x.com/sw.js", "ws://sw"⟩

/-- Member extraction of one entry, as a `filterMap` step. -/
theorem processEntry_members (acc : List ListMember × Option String) (entry : RawEntry) :
    (processEntry acc entry).1 =
      acc.1 ++ (match entry.user_result with
        | some u => if u.legacy.isSome then [ListMember.from_api u] else []
        | none => []) := by
  unfold processEntry
  rcases entry.user_result with _ | u <;> simp
  · split <;> simp
  · by_cases h : u.legacy.isSome <;> simp [h] <;> split <;> simp

/-- The entry loop only appends members extracted by the legacy test. -/
theorem foldl_processEntry_members (entries : List RawEntry) :
    ∀ acc : List ListMember × Option String,
      (entries.foldl processEntry acc).1 =
        acc.1 ++ entries.filterMap (fun e =>
          match e.user_result with
          | some u => if u.legacy.isSome then some (ListMember.from_api u) else none
          | none => none) := by
  induction entries with
  | nil => simp
  | cons e es ih =>
    intro acc
    rw [List.foldl_cons, ih, List.filterMap_cons, processEntry_members]
    rcases e.user_result with _ | u
    · simp
    · by_cases h : u.legacy.isSome <;> simp [h]

/-- The instruction loop of `get_list_members`, as a `filterMap` over
the flattened entries, for an arbitrary starting accumulator. -/
theorem foldl_instructions_members (instructions : List (List RawEntry)) :
    ∀ acc : List ListMember × Option String,
      (instructions.foldl (fun acc entries => entries.foldl processEntry acc) acc).1 =
        acc.1 ++ instructions.flatten.filterMap (fun e =>
          match e.user_result with
          | some u => if u.legacy.isSome then some (ListMember.from_api u) else none
          | none => none) := by
  induction instructions with
  | nil => simp
  | cons entries rest ih =>
    intro acc
    rw [List.foldl_cons, ih, foldl_processEntry_members, List.flatten_cons,
      List.filterMap_append, List.append_assoc]

/-- C10: an entry of a ListMembers response is included as a member
exactly when it carries a `user_results.result` object with a non-empty
`legacy` field; entries whose result lacks a legacy object are skipped
without error and appear nowhere in the member list. -/
theorem get_list_members_filter_legacy (instructions : List (List RawEntry)) :
    (get_list_members instructions).1 =
      instructions.flatten.filterMap (fun e =>
        match e.user_result with
        | some u => if u.legacy.isSome then some (ListMember.from_api u) else none
        | none => none) := by
  unfold get_list_members
  rw [foldl_instructions_members]
  rfl

/-- C6: export-by-name selects by case-insensitive substring match: on
the lists Gauntlet and Dev Friends the query gaunt selects Gauntlet and
continues with its id, a query matching both (here the letter e) exits
with status 1 as ambiguous, a query matching none exits with status 1
as not-found; in general the not-found error happens exactly when the
match list is empty, the ambiguous error exactly when it has at least
two elements, and a list is selected exactly when it is the unique
match. -/
theorem select_list_by_name_spec :
    (selectListByName "gaunt" demoLists = .ok gauntletList ∧
     mainExportByName "gaunt" demoLists = .ok "1876334018150678826") ∧
    (selectListByName "e" demoLists = .error .ambiguous ∧
     mainExportByName "e" demoLists = .error 1) ∧
    (selectListByName "zzz" demoLists = .error .notFound ∧
     mainExportByName "zzz" demoLists = .error 1) ∧
    (∀ query lists, selectListByName query lists = .error SelectError.notFound ↔
      lists.filter (fun l => nameMatch query l.name) = []) ∧
    (∀ query lists, selectListByName query lists = .error SelectError.ambiguous ↔
      2 ≤ (lists.filter (fun l => nameMatch query l.name)).length) ∧
    (∀ query lists l, selectListByName query lists = .ok l ↔
      lists.filter (fun l2 => nameMatch query l2.name) = [l]) := by
  refine ⟨⟨rfl, rfl⟩, ⟨rfl, rfl⟩, ⟨rfl, rfl⟩, ?_, ?_, ?_⟩
  · intro query lists
    unfold selectListByName
    rcases hf : lists.filter (fun l => nameMatch query l.name) with _ | ⟨a, _ | ⟨b, rest⟩⟩ <;>
      rw [hf] <;> simp [hf]
  · intro query lists
    unfold selectListByName
    rcases hf : lists.filter (fun l => nameMatch query l.name) with _ | ⟨a, _ | ⟨b, rest⟩⟩ <;>
      rw [hf] <;> simp [hf]
  · intro query lists l
    unfold selectListByName
    rcases hf : lists.filter (fun l2 => nameMatch query l2.name) with _ | ⟨a, _ | ⟨b, rest⟩⟩ <;>
      rw [hf] <;> simp [hf]

/-- Witness for C6 at the concrete scenario of the claim. -/
theorem select_list_by_name_spec_witness :
    selectListByName "gaunt" demoLists = .ok gauntletList :=
  select_list_by_name_spec.1.1

/-- C7, counterexample: the harvested cookie set keeps a cookie whose
domain fakex.com merely ends with the characters x.com and is neither
the target domain nor a subdomain of it, refuting the claimed
domain-or-subdomain characterisation. -/
theorem cookie_filter_suffix_cex :
    buildCookies [evilCookie] = [("evil", "v")] ∧
    (buildCookies [evilCookie]).lookup "evil" = some "v" ∧
    onTargetDomain evilCookie.domain = false := by
  exact ⟨rfl, rfl, rfl⟩

/-- C8, counterexample: with a lookalike page listed before a genuine
x.com page, target selection picks the lookalike page, whose URL host
is not on the target domain, even though a page on the target domain
exists; the code tests for a substring of the URL, not the domain. -/
theorem pick_target_domain_cex :
    pickTarget [fakePageTarget, xPageTarget] = some fakePageTarget ∧
    onTargetDomain (urlHost fakePageTarget.url) = false ∧
    xPageTarget ∈ [fakePageTarget, xPageTarget] ∧
    xPageTarget.type = "page" ∧
    onTargetDomain (urlHost xPageTarget.url) = true := by
  refine ⟨rfl, rfl, by simp, rfl, rfl⟩

/-- C9: when the first page has no members and no cursor, the paginator
fetches exactly that one page and yields nothing, and the export
produces a document with member_count 0 and an empty members array. -/
theorem empty_first_page_zero_export (get_list_info : Except String XList)
    (fetch : Option String → Except String Page) (info : XList) (now : String) (fuel : Nat)
    (hinfo : get_list_info = .ok info)
    (hfetch : fetch none = .ok ⟨[], none⟩)
    (hfuel : 1 ≤ fuel) :
    get_all_list_members fetch fuel none = ([XEvent.fetchPage none], some (.ok [])) ∧
    export_list_to_json get_list_info fetch fuel now =
      ([XEvent.fetchInfo, XEvent.fetchPage none, XEvent.writeFile],
       some (.ok ⟨info, now ++ "Z", 0, []⟩)) := by
  obtain ⟨f, rfl⟩ : ∃ f, fuel = f + 1 := ⟨fuel - 1, by omega⟩
  have h1 : get_all_list_members fetch (f + 1) none = ([XEvent.fetchPage none], some (.ok [])) := by
    unfold get_all_list_members
    rw [hfetch]
    simp [cursorTruthy]
  refine ⟨h1, ?_⟩
  unfold export_list_to_json
  rw [hinfo, h1]
  simp

/-- Witness for C9 at a concrete empty page source. -/
theorem empty_first_page_zero_export_witness :
    get_all_list_members emptyFetch 1 none = ([XEvent.fetchPage none], some (.ok [])) ∧
    export_list_to_json (Except.ok demoList) emptyFetch 1 "T" =
      ([XEvent.fetchInfo, XEvent.fetchPage none, XEvent.writeFile],
       some (.ok ⟨demoList, "T" ++ "Z", 0, []⟩)) :=
  empty_first_page_zero_export (Except.ok demoList) emptyFetch demoList "T" 1 rfl rfl
    (by decide)

/-- C2: any export run that completes returns a document whose
member_count equals the length of its members array. -/
theorem export_member_count_eq_length (get_list_info : Except String XList)
    (fetch : Option String → Except String Page) (fuel : Nat) (now : String)
    (tr : List XEvent) (doc : ExportDoc)
    (h : export_list_to_json get_list_info fetch fuel now = (tr, some (.ok doc))) :
    doc.member_count = doc.members.length := by
  rcases hg : get_all_list_members fetch fuel none with ⟨tr2, r⟩
  unfold export_list_to_json at h
  rcases get_list_info with e | info
  · simp at h
  · rw [hg] at h
    rcases r with _ | r
    · simp at h
    · rcases r with e | ms
      · simp at h
      · simp only [Prod.mk.injEq, Option.some.injEq, Except.ok.injEq] at h
        rw [← h.2]

/-- Witness for C2 at a concrete completed run. -/
theorem export_member_count_eq_length_witness :
    (ExportDoc.mk demoList ("T" ++ "Z") 0 []).member_count =
      (ExportDoc.mk demoList ("T" ++ "Z") 0 []).members.length :=
  export_member_count_eq_length (Except.ok demoList) emptyFetch 1 "T"
    [XEvent.fetchInfo, XEvent.fetchPage none, XEvent.writeFile]
    (ExportDoc.mk demoList ("T" ++ "Z") 0 []) rfl

/-- Unfolding equation of the paginator at zero fuel. -/
theorem getAll_zero (fetch : Option String → Except String Page) (cursor : Option String) :
    get_all_list_members fetch 0 cursor = ([], none) := rfl

/-- Unfolding equation of the paginator when the page fetch raises. -/
theorem getAll_succ_error (fetch : Option String → Except String Page) (fuel : Nat)
    (cursor : Option String) (e : String) (hf : fetch cursor = .error e) :
    get_all_list_members fetch (fuel + 1) cursor =
      ([XEvent.fetchPage cursor], some (.error e)) := by
  unfold get_all_list_members
  rw [hf]

/-- Unfolding equation of the paginator when the fetched page triggers
the break condition. -/
theorem getAll_succ_stop (fetch : Option String → Except String Page) (fuel : Nat)
    (cursor : Option String) (page : Page) (hf : fetch cursor = .ok page)
    (hc : (!(cursorTruthy page.next_cursor) || page.members.isEmpty) = true) :
    get_all_list_members fetch (fuel + 1) cursor =
      ([XEvent.fetchPage cursor], some (.ok page.members)) := by
  unfold get_all_list_members
  rw [hf]
  show (if (!(cursorTruthy page.next_cursor) || page.members.isEmpty) = true then
      ([XEvent.fetchPage cursor], some (Except.ok page.members))
    else
      (XEvent.fetchPage cursor :: (get_all_list_members fetch fuel page.next_cursor).1,
       ((get_all_list_members fetch fuel page.next_cursor).2).map
         (fun r => r.map (fun ms => page.members ++ ms)))) = _
  rw [if_pos hc]

/-- Unfolding equation of the paginator when the fetched page carries a
truthy cursor and at least one member. -/
theorem getAll_succ_go (fetch : Option String → Except String Page) (fuel : Nat)
    (cursor : Option String) (page : Page) (hf : fetch cursor = .ok page)
    (hc : ¬((!(cursorTruthy page.next_cursor) || page.members.isEmpty) = true)) :
    get_all_list_members fetch (fuel + 1) cursor =
      (XEvent.fetchPage cursor :: (get_all_list_members fetch fuel page.next_cursor).1,
       ((get_all_list_members fetch fuel page.next_cursor).2).map
         (fun r => r.map (fun ms => page.members ++ ms))) := by
  conv_lhs => unfold get_all_list_members
  rw [hf]
  show (if (!(cursorTruthy page.next_cursor) || page.members.isEmpty) = true then
      ([XEvent.fetchPage cursor], some (Except.ok page.members))
    else
      (XEvent.fetchPage cursor :: (get_all_list_members fetch fuel page.next_cursor).1,
       ((get_all_list_members fetch fuel page.next_cursor).2).map
         (fun r => r.map (fun ms => page.members ++ ms)))) = _
  rw [if_neg hc]

/-- The paginator trace consists of page-fetch events only. -/
theorem getAll_trace_fetchPage (fetch : Option String → Except String Page) :
    ∀ (fuel : Nat) (cursor : Option String) (ev : XEvent),
      ev ∈ (get_all_list_members fetch fuel cursor).1 → ∃ cu, ev = XEvent.fetchPage cu := by
  intro fuel
  induction fuel with
  | zero =>
    intro cursor ev h
    rw [getAll_zero] at h
    simp at h
  | succ f ih =>
    intro cursor ev h
    rcases hf : fetch cursor with e | page
    · rw [getAll_succ_error fetch f cursor e hf] at h
      simp at h
      exact ⟨cursor, h⟩
    · by_cases hc : (!(cursorTruthy page.next_cursor) || page.members.isEmpty) = true
      · rw [getAll_succ_stop fetch f cursor page hf hc] at h
        simp at h
        exact ⟨cursor, h⟩
      · rw [getAll_succ_go fetch f cursor page hf hc] at h
        rcases List.mem_cons.mp h with h1 | h1
        · exact ⟨cursor, h1⟩
        · exact ih page.next_cursor ev h1

/-- C3: the file-write event occurs in an export trace exactly when the
run completed successfully; the write happens only after the whole
member sequence has been fetched, so a metadata failure, a page-fetch
failure, or an unfinished pagination loop leaves no incomplete file. -/
theorem export_write_iff_success (get_list_info : Except String XList)
    (fetch : Option String → Except String Page) (fuel : Nat) (now : String) :
    XEvent.writeFile ∈ (export_list_to_json get_list_info fetch fuel now).1 ↔
    ∃ doc, (export_list_to_json get_list_info fetch fuel now).2 = some (.ok doc) := by
  rcases hg : get_all_list_members fetch fuel none with ⟨tr2, r⟩
  have htr2 : ∀ ev ∈ tr2, ∃ cu, ev = XEvent.fetchPage cu := by
    intro ev hev
    exact getAll_trace_fetchPage fetch fuel none ev (by rw [hg]; exact hev)
  unfold export_list_to_json
  rcases get_list_info with e | info
  · simp
  · rw [hg]
    rcases r with _ | r
    · show XEvent.writeFile ∈ XEvent.fetchInfo :: tr2 ↔
        ∃ doc, (none : Option (Except String ExportDoc)) = some (.ok doc)
      constructor
      · intro hmem
        rcases List.mem_cons.mp hmem with h1 | h1
        · exact absurd h1 (by simp)
        · obtain ⟨cu, hcu⟩ := htr2 _ h1
          exact absurd hcu (by simp)
      · rintro ⟨doc, hdoc⟩
        exact absurd hdoc (by simp)
    · rcases r with e | ms
      · show XEvent.writeFile ∈ XEvent.fetchInfo :: tr2 ↔
          ∃ doc, (some (Except.error e) : Option (Except String ExportDoc)) = some (.ok doc)
        constructor
        · intro hmem
          rcases List.mem_cons.mp hmem with h1 | h1
          · exact absurd h1 (by simp)
          · obtain ⟨cu, hcu⟩ := htr2 _ h1
            exact absurd hcu (by simp)
        · rintro ⟨doc, hdoc⟩
          exact absurd hdoc (by simp)
      · show XEvent.writeFile ∈ XEvent.fetchInfo :: (tr2 ++ [XEvent.writeFile]) ↔
          ∃ doc, (some (Except.ok (ExportDoc.mk info (now ++ "Z") ms.length ms)) :
            Option (Except String ExportDoc)) = some (.ok doc)
        constructor
        · intro _
          exact ⟨ExportDoc.mk info (now ++ "Z") ms.length ms, rfl⟩
        · intro _
          simp

/-- Witness for C3 at a concrete successful run. -/
theorem export_write_iff_success_witness :
    XEvent.writeFile ∈ (export_list_to_json (Except.ok demoList) emptyFetch 1 "T").1 :=
  (export_write_iff_success (Except.ok demoList) emptyFetch 1 "T").mpr
    ⟨ExportDoc.mk demoList ("T" ++ "Z") 0 [], rfl⟩

/-- The expected fetch trace has one entry per page. -/
theorem pageTrace_length :
    ∀ (c : Option String) (ps : List Page), (pageTrace c ps).length = ps.length := by
  intro c ps
  induction ps generalizing c with
  | nil => rfl
  | cons p rest ih => simp [pageTrace, ih]

/-- A consistent page chain makes the paginator fetch each page once,
in order, and return the concatenation of the page member lists. -/
theorem getAll_of_pageChain (fetch : Option String → Except String Page)
    (c : Option String) (ps : List Page) (h : PageChain fetch c ps) :
    ∀ fuel, ps.length ≤ fuel →
      get_all_list_members fetch fuel c =
        (pageTrace c ps, some (.ok (ps.map Page.members).flatten)) := by
  induction h with
  | last c p hf hnone =>
    intro fuel hfuel
    obtain ⟨f, rfl⟩ : ∃ f, fuel = f + 1 := ⟨fuel - 1, by simp at hfuel; omega⟩
    rw [getAll_succ_stop fetch f c p hf (by simp [hnone, cursorTruthy])]
    simp [pageTrace]
  | cons c p rest hf hcur hne hchain ih =>
    intro fuel hfuel
    obtain ⟨f, rfl⟩ : ∃ f, fuel = f + 1 := ⟨fuel - 1, by simp at hfuel; omega⟩
    have hfl : rest.length ≤ f := by
      simp only [List.length_cons] at hfuel
      omega
    rw [getAll_succ_go fetch f c p hf (by simp [hcur, hne])]
    rw [ih f hfl]
    simp [pageTrace, Except.map]

/-- C1 (amended): over any finite page sequence served consistently in
which every page before the last is non-empty and carries a truthy
continuation cursor and the last page carries none, the paginator
yields exactly the concatenation of the page member lists in page
order, fetches each page exactly once (the trace lists one fetch per
page, in page order), and stops after the page with no cursor. -/
theorem get_all_members_concat (fetch : Option String → Except String Page)
    (ps : List Page) (fuel : Nat) (hchain : PageChain fetch none ps)
    (hfuel : ps.length ≤ fuel) :
    get_all_list_members fetch fuel none =
      (pageTrace none ps, some (.ok (ps.map Page.members).flatten)) ∧
    (pageTrace none ps).length = ps.length :=
  ⟨getAll_of_pageChain fetch none ps hchain fuel hfuel, pageTrace_length none ps⟩

/-- Witness for C1 on a concrete two-page chain. -/
theorem get_all_members_concat_witness :
    get_all_list_members demoChainFetch 2 none =
      (pageTrace none [demoPage0, demoPage1],
       some (.ok ([demoPage0, demoPage1].map Page.members).flatten)) ∧
    (pageTrace none [demoPage0, demoPage1]).length = [demoPage0, demoPage1].length :=
  get_all_members_concat demoChainFetch [demoPage0, demoPage1] 2
    (PageChain.cons none demoPage0 [demoPage1] rfl (by decide) (by decide)
      (PageChain.last (some "cur1") demoPage1 rfl rfl))
    (by decide)

/-- C1, counterexample to the claim as stated: a first page that
carries a continuation cursor but no members, followed by a final page
with one member and no cursor.  The pages and the fetch function agree
with the claim hypothesis (every page before the last carries a
cursor, the last carries none), yet the run stops after the first
page, never fetches the second, and yields the empty list instead of
the concatenation of the member lists. -/
theorem get_all_members_concat_cex :
    cexFetch none = .ok cexPage0 ∧
    cexPage0.next_cursor = some "cur1" ∧
    cexFetch (some "cur1") = .ok cexPage1 ∧
    cexPage1.next_cursor = none ∧
    ([cexPage0, cexPage1].map Page.members).flatten = [demoMember] ∧
    get_all_list_members cexFetch 2 none = ([XEvent.fetchPage none], some (.ok [])) ∧
    ([] : List ListMember) ≠ [demoMember] := by
  refine ⟨rfl, rfl, rfl, rfl, rfl, rfl, by decide⟩

/-- Reaching the break condition somewhere along the cursor chain gives
the loop enough fuel to finish. -/
theorem getAll_isSome_of_stops (fetch : Option String → Except String Page)
    (c : Option String) (h : Stops fetch c) :
    ∃ fuel, ((get_all_list_members fetch fuel c).2).isSome = true := by
  induction h with
  | done c p hf hstop =>
    refine ⟨1, ?_⟩
    rw [getAll_succ_stop fetch 0 c p hf ?_]
    · rfl
    · rcases hstop with h1 | h1 <;> simp [h1]
  | step c p hf hcur hne hstops ih =>
    obtain ⟨f, hsome⟩ := ih
    refine ⟨f + 1, ?_⟩
    rw [getAll_succ_go fetch f c p hf (by simp [hcur, hne])]
    simpa using hsome

/-- A finished loop means the break condition was reached along the
cursor chain. -/
theorem stops_of_getAll_isSome (fetch : Option String → Except String Page)
    (hok : ∀ c, ∃ p, fetch c = .ok p) :
    ∀ (fuel : Nat) (c : Option String),
      ((get_all_list_members fetch fuel c).2).isSome = true → Stops fetch c := by
  intro fuel
  induction fuel with
  | zero =>
    intro c h
    rw [getAll_zero] at h
    simp at h
  | succ f ih =>
    intro c h
    obtain ⟨p, hp⟩ := hok c
    by_cases hcur : cursorTruthy p.next_cursor = true
    · by_cases hemp : p.members.isEmpty = true
      · exact Stops.done c p hp (Or.inr (List.isEmpty_iff.mp hemp))
      · have hc : ¬((!(cursorTruthy p.next_cursor) || p.members.isEmpty) = true) := by
          simp [hcur, hemp]
        rw [getAll_succ_go fetch f c p hp hc] at h
        refine Stops.step c p hp hcur ?_ (ih p.next_cursor (by simpa using h))
        intro hn
        rw [hn] at hemp
        simp at hemp
    · refine Stops.done c p hp (Or.inl ?_)
      rcases hcc : cursorTruthy p.next_cursor with _ | _
      · rfl
      · exact absurd hcc hcur

/-- Against a source that always returns a non-empty page with a truthy
cursor, the loop never finishes and fetches one page per unit of fuel. -/
theorem getAll_none_of_productive (fetch : Option String → Except String Page)
    (hok : ∀ c, ∃ p, fetch c = .ok p)
    (hprod : ∀ c p, fetch c = .ok p → p.members ≠ [] ∧ cursorTruthy p.next_cursor = true) :
    ∀ (fuel : Nat) (c : Option String),
      (get_all_list_members fetch fuel c).2 = none ∧
      (get_all_list_members fetch fuel c).1.length = fuel := by
  intro fuel
  induction fuel with
  | zero =>
    intro c
    rw [getAll_zero]
    exact ⟨rfl, rfl⟩
  | succ f ih =>
    intro c
    obtain ⟨p, hp⟩ := hok c
    obtain ⟨hne, hcur⟩ := hprod c p hp
    have hc : ¬((!(cursorTruthy p.next_cursor) || p.members.isEmpty) = true) := by
      simp [hcur, hne]
    rw [getAll_succ_go fetch f c p hp hc]
    obtain ⟨h1, h2⟩ := ih p.next_cursor
    exact ⟨by simp [h1], by simp [h2]⟩

/-- C4: with a fetch that always succeeds, the paginator loop finishes
within some fuel bound exactly when the cursor chain reaches a page
with a falsy cursor or with no members; and against a source that
always returns a non-empty page carrying a truthy cursor the loop
never finishes, fetching one further page per unit of fuel, so no
maximum-page bound is imposed. -/
theorem get_all_termination_iff (fetch : Option String → Except String Page)
    (hok : ∀ c, ∃ p, fetch c = .ok p) (c : Option String) :
    ((∃ fuel, ((get_all_list_members fetch fuel c).2).isSome = true) ↔ Stops fetch c) ∧
    ((∀ c2 p, fetch c2 = .ok p → p.members ≠ [] ∧ cursorTruthy p.next_cursor = true) →
      ∀ fuel, (get_all_list_members fetch fuel c).2 = none ∧
        (get_all_list_members fetch fuel c).1.length = fuel) := by
  constructor
  · constructor
    · rintro ⟨fuel, hf⟩
      exact stops_of_getAll_isSome fetch hok fuel c hf
    · exact getAll_isSome_of_stops fetch c
  · intro hprod fuel
    exact getAll_none_of_productive fetch hok hprod fuel c

/-- Witness for C4 at a concrete always-productive page source. -/
theorem get_all_termination_iff_witness :
    (get_all_list_members alwaysFetch 3 none).2 = none ∧
    (get_all_list_members alwaysFetch 3 none).1.length = 3 :=
  (get_all_termination_iff alwaysFetch
      (fun _ => ⟨⟨[demoMember], some "more"⟩, rfl⟩) none).2
    (fun c2 p hp => by
      injection hp with h
      rw [← h]
      exact ⟨by decide, by decide⟩) 3

/-- C5: when the harvested cookie dict lacks the auth_token cookie or
the ct0 cookie, credential extraction fails with the distinct
not-logged-in error and returns no credentials, and the main flow exits
with status 1 before an API client is constructed, so no API call is
attempted. -/
theorem extract_auth_missing_cookie_fails (targets : List Target) (allCookies : List Cookie)
    (hpage : (pickTarget targets).isSome = true)
    (hmiss : (buildCookies allCookies).lookup "auth_token" = none ∨
      (buildCookies allCookies).lookup "ct0" = none) :
    (extract_auth_from_browser targets allCookies).2 = .error .notLoggedIn ∧
    mainAuthPhase targets allCookies = .error 1 := by
  obtain ⟨t, ht⟩ := Option.isSome_iff_exists.mp hpage
  have h1 : (extract_auth_from_browser targets allCookies).2 = .error .notLoggedIn := by
    unfold extract_auth_from_browser
    rw [ht]
    rcases hmiss with h | h <;> simp [h]
  refine ⟨h1, ?_⟩
  unfold mainAuthPhase
  rw [h1]

/-- Witness for C5: one page target, an empty cookie jar. -/
theorem extract_auth_missing_cookie_fails_witness :
    (extract_auth_from_browser [demoTarget] []).2 = .error .notLoggedIn ∧
    mainAuthPhase [demoTarget] [] = .error 1 :=
  extract_auth_missing_cookie_fails [demoTarget] [] rfl (Or.inl rfl)

/-- Lookup in an association list succeeds exactly on its keys. -/
theorem lookup_isSome_iff_mem_keys (n : String) :
    ∀ d : List (String × String), ((d.lookup n).isSome = true) ↔ n ∈ d.map Prod.fst := by
  intro d
  induction d with
  | nil => simp
  | cons a d ih =>
    rcases a with ⟨k, v⟩
    by_cases h : n = k
    · subst h
      simp [List.lookup]
    · have hb : (n == k) = false := by simp [h]
      simp [List.lookup, hb, h, ih]

/-- Key membership after a dict insertion. -/
theorem mem_keys_dictInsert (d : List (String × String)) (k v n : String) :
    n ∈ (dictInsert d k v).map Prod.fst ↔ n ∈ d.map Prod.fst ∨ n = k := by
  unfold dictInsert
  by_cases h : d.any (fun p => p.1 == k) = true
  · rw [if_pos h]
    simp only [List.map_map, List.mem_map, Function.comp]
    constructor
    · rintro ⟨p, hp, hpn⟩
      by_cases hpk : p.1 = k
      · right
        simp [hpk] at hpn
        exact hpn.symm
      · left
        exact ⟨p, hp, by simpa [hpk] using hpn⟩
    · rintro (hn | rfl)
      · obtain ⟨p, hp, hpn⟩ := hn
        refine ⟨p, hp, ?_⟩
        by_cases hpk : p.1 = k
        · simp [hpk]
          rw [← hpn, hpk]
        · simpa [hpk] using hpn
      · obtain ⟨p, hp, hpk⟩ := List.any_eq_true.mp h
        refine ⟨p, hp, ?_⟩
        simp only [beq_iff_eq] at hpk
        simp [hpk]
  · rw [if_neg h]
    simp

/-- Keys of the harvest loop result, for an arbitrary accumulator: a
name is present exactly when it was already present or some cookie of
the input carries it and passes the domain-suffix filter. -/
theorem mem_keys_buildCookies_foldl (n : String) :
    ∀ (cs : List Cookie) (d : List (String × String)),
      (n ∈ (cs.foldl
        (fun d c => if cookie_domain_ok c then dictInsert d c.name c.value else d) d).map
          Prod.fst) ↔
      (n ∈ d.map Prod.fst ∨ ∃ c ∈ cs, c.name = n ∧ cookie_domain_ok c = true) := by
  intro cs
  induction cs with
  | nil => simp
  | cons c cs ih =>
    intro d
    rw [List.foldl_cons, ih]
    by_cases hc : cookie_domain_ok c = true
    · rw [if_pos hc, mem_keys_dictInsert]
      constructor
      · rintro ((h1 | h1) | h1)
        · exact Or.inl h1
        · exact Or.inr ⟨c, List.mem_cons_self c cs, h1.symm, hc⟩
        · obtain ⟨c2, hmem, hn, hok⟩ := h1
          exact Or.inr ⟨c2, List.mem_cons_of_mem c hmem, hn, hok⟩
      · rintro (h1 | ⟨c2, hmem, hn, hok⟩)
        · exact Or.inl (Or.inl h1)
        · rcases List.mem_cons.mp hmem with rfl | hmem2
          · exact Or.inl (Or.inr hn.symm)
          · exact Or.inr ⟨c2, hmem2, hn, hok⟩
    · rw [if_neg hc]
      constructor
      · rintro (h1 | ⟨c2, hmem, hn, hok⟩)
        · exact Or.inl h1
        · exact Or.inr ⟨c2, List.mem_cons_of_mem c hmem, hn, hok⟩
      · rintro (h1 | ⟨c2, hmem, hn, hok⟩)
        · exact Or.inl h1
        · rcases List.mem_cons.mp hmem with rfl | hmem2
          · exact absurd hok hc
          · exact Or.inr ⟨c2, hmem2, hn, hok⟩

/-- C7 (amended): the harvested cookie set contains a cookie name
exactly when some cookie record of the CDP response carries that name
and a domain string that ends with the characters x.com or twitter.com
— a plain suffix test, which also accepts lookalike domains such as
fakex.com. -/
theorem build_cookies_mem_iff_suffix (cs : List Cookie) (n : String) :
    ((buildCookies cs).lookup n).isSome = true ↔
    ∃ c ∈ cs, c.name = n ∧ cookie_domain_ok c = true := by
  rw [lookup_isSome_iff_mem_keys]
  unfold buildCookies
  rw [mem_keys_buildCookies_foldl]
  simp

/-- Witness for C7 at a cookie on the genuine target domain. -/
theorem build_cookies_mem_iff_suffix_witness :
    ((buildCookies [demoAuthCookie]).lookup "auth_token").isSome = true :=
  (build_cookies_mem_iff_suffix [demoAuthCookie] "auth_token").mpr
    ⟨demoAuthCookie, List.mem_singleton.mpr rfl, rfl, rfl⟩

/-- First-match characterisation of linear search: splitting the list
at the first element satisfying the predicate determines the result of
`find?`. -/
theorem find?_first {α : Type} (p : α → Bool) :
    ∀ (pre : List α) (t : α) (post : List α), p t = true → (∀ u ∈ pre, p u = false) →
      (pre ++ t :: post).find? p = some t := by
  intro pre
  induction pre with
  | nil =>
    intro t post hpt _
    simp [List.find?, hpt]
  | cons a pre ih =>
    intro t post hpt hpre
    have ha : p a = false := hpre a (List.mem_cons_self a pre)
    rw [List.cons_append, List.find?_cons_of_neg _ (by simp [ha])]
    exact ih t post hpt (fun u hu => hpre u (List.mem_cons_of_mem a hu))

/-- C8 (amended): target selection picks the FIRST target whose type is
page and whose URL contains x.com or twitter.com as a substring (which
may be a lookalike domain) whenever one exists; when no target matches,
it falls back to the FIRST page-type target; any selected target is
page-type; and when no page-type target exists at all, credential
extraction fails with the distinct no-browser-page error and an empty
event trace, opening no control channel. -/
theorem pick_target_fallback_spec (targets : List Target) (allCookies : List Cookie) :
    (∀ pre t post, targets = pre ++ t :: post → target_matches_x t = true →
      (∀ u ∈ pre, target_matches_x u = false) → pickTarget targets = some t) ∧
    (∀ pre t post, targets = pre ++ t :: post →
      (∀ u ∈ targets, target_matches_x u = false) → t.type = "page" →
      (∀ u ∈ pre, ¬(u.type = "page")) → pickTarget targets = some t) ∧
    (∀ t, pickTarget targets = some t → t.type = "page") ∧
    ((∀ u ∈ targets, ¬(u.type = "page")) →
      pickTarget targets = none ∧
      extract_auth_from_browser targets allCookies = ([], .error .noBrowserPage)) := by
  refine ⟨?_, ?_, ?_, ?_⟩
  · rintro pre t post rfl hpt hpre
    have hf := find?_first target_matches_x pre t post hpt hpre
    simp [pickTarget, hf]
  · rintro pre t post rfl hall hpage hpre
    have h1 : ((pre ++ t :: post).find? target_matches_x) = none :=
      List.find?_eq_none.mpr (fun u hu => by simp [hall u hu])
    have h2 := find?_first (fun u => u.type == "page") pre t post (by simp [hpage])
      (fun u hu => by simp [hpre u hu])
    simp [pickTarget, h1, h2]
  · intro t ht
    unfold pickTarget at ht
    rcases hf : targets.find? target_matches_x with _ | u
    · rw [hf] at ht
      replace ht : targets.find? (fun t => t.type == "page") = some t := ht
      have h2 := List.find?_some ht
      simpa using h2
    · rw [hf] at ht
      replace ht : (some u : Option Target) = some t := ht
      cases ht
      have hu := List.find?_some hf
      unfold target_matches_x at hu
      have h2 := (Bool.and_eq_true _ _).mp hu
      simpa using h2.1
  · intro hall
    have h1 : targets.find? target_matches_x = none :=
      List.find?_eq_none.mpr (fun u hu => by
        unfold target_matches_x
        simp [hall u hu])
    have h2 : targets.find? (fun t => t.type == "page") = none :=
      List.find?_eq_none.mpr (fun u hu => by simp [hall u hu])
    have hp : pickTarget targets = none := by
      simp [pickTarget, h1, h2]
    exact ⟨hp, by simp [extract_auth_from_browser, hp]⟩

/-- Witness for C8: first-match selection skipping a non-matching page,
first-page fallback skipping a non-page target, and the no-page error
with an empty trace. -/
theorem pick_target_fallback_spec_witness :
    pickTarget [demoTarget, fakePageTarget, xPageTarget] = some fakePageTarget ∧
    pickTarget [nonPageTarget, demoTarget] = some demoTarget ∧
    extract_auth_from_browser [nonPageTarget] [] = ([], .error .noBrowserPage) :=
  ⟨(pick_target_fallback_spec [demoTarget, fakePageTarget, xPageTarget] []).1
      [demoTarget] fakePageTarget [xPageTarget] rfl (by decide) (by decide),
   (pick_target_fallback_spec [nonPageTarget, demoTarget] []).2.1
      [nonPageTarget] demoTarget [] rfl (by decide) rfl (by decide),
   ((pick_target_fallback_spec [nonPageTarget] []).2.2.2 (by decide)).2⟩
